import Mathlib

/-
Verification of the fault-interception layer of the ART runtime
(runtime/fault_handler.cc / fault_handler.h): the `FaultManager` singleton,
its registry of generated-code address ranges, the two ordered handler lists
and the fault-dispatch protocol.

The embedding is sequential: the linked list `generated_code_ranges_` is
modelled as a Lean list ordered head-first (insertion links at the head), and
the external collaborators consulted during classification
(`Thread::Current()`, `thread->GetState()`,
`Locks::mutator_lock_->IsSharedHeld(thread)`, `GetFaultPc(siginfo, context)`)
are modelled as inputs.  A separate pointer-level model (`RangeHeap`) embeds
the node store and the link fields for the claims about the unlink step of
`RemoveGeneratedCodeRange`.
-/

namespace Art

/-- Pointer width of the target: `uintptr_t` / `size_t` are 64-bit, so all
address arithmetic is performed modulo `2 ^ 64`. -/
def ptrMod : Nat := 2 ^ 64

/-- C unsigned subtraction `a - b` at pointer width: both operands reduced to
machine width, with wraparound when `b` exceeds `a`. -/
def usub (a b : Nat) : Nat := (a % ptrMod + ptrMod - b % ptrMod) % ptrMod

/-- One registered generated-code region, as in
`struct FaultManager::GeneratedCodeRange` (fault_handler.cc:56), without the
intrusive `next` link: in the list model the registry order carries it. -/
structure GeneratedCodeRange where
  start : Nat
  size : Nat
deriving DecidableEq, Repr

/-- Thread execution states distinguished by the fault handler: the source
compares `thread->GetState()` only against `ThreadState::kRunnable`, so the
remaining states of the enum are collapsed into two representatives. -/
inductive ThreadState where
  | kRunnable
  | kNative
  | kSuspended
deriving DecidableEq, Repr

/-- Results of the external collaborators consulted by `IsInGeneratedCode`
(fault_handler.cc:306-333): whether `Thread::Current()` is non-null, the
thread state, whether the mutator lock is held shared by the thread, and the
fault program counter extracted by the platform accessor `GetFaultPc`. -/
structure FaultContext where
  hasCurrentThread : Bool
  threadState : ThreadState
  mutatorLockSharedHeld : Bool
  faultPc : Nat
deriving DecidableEq, Repr

/-- Arguments of one fault delivery: the signal number together with the
decoded thread/machine context used during classification. -/
structure FaultArgs where
  sig : Int
  ctx : FaultContext

/-- A registered fault handler: its identity (C++ pointer identity, modelled
as a numeric id) and its virtual `Action(sig, info, context)` predicate. -/
structure FaultHandler where
  id : Nat
  action : FaultArgs → Bool

/-- The `FaultManager` state (fault_handler.h:82-84 plus the range registry of
fault_handler.cc): the two ordered handler lists, the registry of
generated-code ranges (list head first, as nodes are linked at the head on
insertion), and the `initialized_` flag. -/
structure FaultManager where
  generated_code_handlers : List FaultHandler
  other_handlers : List FaultHandler
  generated_code_ranges : List GeneratedCodeRange
  initialized : Bool

/-- Per-range membership test of `IsInGeneratedCode` (fault_handler.cc:338):
`fault_pc - reinterpret_cast<uintptr_t>(range->start) < range->size`,
performed in unsigned pointer-width arithmetic. -/
def inGeneratedRange (fault_pc : Nat) (r : GeneratedCodeRange) : Bool :=
  usub fault_pc r.start < r.size

/-- The walk over the registered ranges in `IsInGeneratedCode`
(fault_handler.cc:336-350): test each range in list order, returning true at
the first hit. -/
def rangesContain (ranges : List GeneratedCodeRange) (fault_pc : Nat) : Bool :=
  match ranges with
  | [] => false
  | r :: rest => inGeneratedRange fault_pc r || rangesContain rest fault_pc

/-- Events observable during `FaultManager::HandleFault`: invocation of a
generated-code handler's `Action`, invocation of an "other" handler's
`Action`, and the call to the never-inlined marker `art_sigsegv_fault()`. -/
inductive Event where
  | consultGenerated (id : Nat)
  | consultOther (id : Nat)
  | sigsegvFaultMarker
deriving DecidableEq, Repr

/-- Whether an event is a handler consultation (not the marker call). -/
def Event.isConsult : Event → Bool
  | Event.sigsegvFaultMarker => false
  | _ => true

namespace FaultManager

/-- `FaultManager::IsInGeneratedCode` (fault_handler.cc:306-352): the guard
chain (current thread exists, is `Runnable`, holds the mutator lock shared,
extracted fault PC nonzero), then the walk over the registered code ranges. -/
def IsInGeneratedCode (m : FaultManager) (ctx : FaultContext) : Bool :=
  if !ctx.hasCurrentThread then false
  else if ctx.threadState != ThreadState.kRunnable then false
  else if !ctx.mutatorLockSharedHeld then false
  else if ctx.faultPc == 0 then false
  else rangesContain m.generated_code_ranges ctx.faultPc

/-- `IsInGeneratedCode` with the manager state threaded explicitly through
every step: the source performs only loads on the manager
(`generated_code_ranges_.load`, `range->next.load`, reads of `start` and
`size`) and never a store, so each branch returns the state it received. -/
def IsInGeneratedCodeOp (m : FaultManager) (ctx : FaultContext) :
    Bool × FaultManager :=
  if !ctx.hasCurrentThread then (false, m)
  else if ctx.threadState != ThreadState.kRunnable then (false, m)
  else if !ctx.mutatorLockSharedHeld then (false, m)
  else if ctx.faultPc == 0 then (false, m)
  else (rangesContain m.generated_code_ranges ctx.faultPc, m)

/-- The generated-code dispatch loop of `HandleFault` (fault_handler.cc:184-191),
instrumented with the sequence of handlers whose `Action` is invoked: the
first handler to claim short-circuits the rest of the list. -/
def dispatchGeneratedCode (handlers : List FaultHandler) (f : FaultArgs) :
    Bool × List Event :=
  match handlers with
  | [] => (false, [])
  | h :: rest =>
    if h.action f then (true, [Event.consultGenerated h.id])
    else
      let r := dispatchGeneratedCode rest f
      (r.1, Event.consultGenerated h.id :: r.2)

/-- The loop of `HandleFaultByOtherHandlers` (fault_handler.cc:141-145),
instrumented likewise. -/
def dispatchOtherHandlers (handlers : List FaultHandler) (f : FaultArgs) :
    Bool × List Event :=
  match handlers with
  | [] => (false, [])
  | h :: rest =>
    if h.action f then (true, [Event.consultOther h.id])
    else
      let r := dispatchOtherHandlers rest f
      (r.1, Event.consultOther h.id :: r.2)

/-- `FaultManager::HandleFaultByOtherHandlers` (fault_handler.cc:131-147):
empty list returns false at once; otherwise the handlers are consulted in
registration order under the short-circuit rule.  The `DCHECK`s on the
current thread and started runtime are debug assertions with no control-flow
effect in release builds. -/
def HandleFaultByOtherHandlers (m : FaultManager) (f : FaultArgs) :
    Bool × List Event :=
  if m.other_handlers.isEmpty then (false, [])
  else dispatchOtherHandlers m.other_handlers f

/-- `FaultManager::HandleFault` (fault_handler.cc:172-204), instrumented with
the event trace: if the fault is classified in generated code, the
generated-code handlers are consulted first (a claim returns true at once);
otherwise, or if none claimed, the other handlers are consulted; if nothing
claimed, `art_sigsegv_fault()` is invoked and false is returned. -/
def HandleFault (m : FaultManager) (f : FaultArgs) : Bool × List Event :=
  let g := if m.IsInGeneratedCode f.ctx
           then dispatchGeneratedCode m.generated_code_handlers f
           else (false, [])
  if g.1 then (true, g.2)
  else
    let o := m.HandleFaultByOtherHandlers f
    if o.1 then (true, g.2 ++ o.2)
    else (false, g.2 ++ o.2 ++ [Event.sigsegvFaultMarker])

/-- `FaultManager::AddGeneratedCodeRange` (fault_handler.cc:229-255): link a
new node at the list head.  The `membarrier()` visibility call does not
change the registry state. -/
def AddGeneratedCodeRange (m : FaultManager) (start size : Nat) : FaultManager :=
  { m with generated_code_ranges :=
      ⟨ start, size⟩ :: m.generated_code_ranges }

/-- `FaultManager::RemoveGeneratedCodeRange` (fault_handler.cc:257-301): find
the first node whose `start` matches and unlink it; `none` models the fatal
checks (`CHECK(range != nullptr)` when no node matches, and
`CHECK_EQ(range->size, size)` on a size mismatch).  The post-unlink
checkpoint and `delete` free the node and do not change the registry. -/
def RemoveGeneratedCodeRange (m : FaultManager) (start size : Nat) :
    Option FaultManager :=
  match m.generated_code_ranges.find? (fun r => r.start == start) with
  | none => none
  | some r =>
    if r.size == size then
      some { m with generated_code_ranges :=
               m.generated_code_ranges.eraseP (fun r => r.start == start) }
    else none

/-- `FaultManager::AddHandler` (fault_handler.cc:206-213): append to the list
selected by the `generated_code` flag (the `DCHECK(initialized_)` is a debug
assertion only). -/
def AddHandler (m : FaultManager) (h : FaultHandler) (generated_code : Bool) :
    FaultManager :=
  if generated_code then
    { m with generated_code_handlers := m.generated_code_handlers ++ [h] }
  else
    { m with other_handlers := m.other_handlers ++ [h] }

/-- `FaultManager::RemoveHandler` (fault_handler.cc:215-227): erase the
handler (by identity) from the generated-code list if present, else from the
other list; `none` models the `LOG(FATAL)` when it is found in neither. -/
def RemoveHandler (m : FaultManager) (h : FaultHandler) : Option FaultManager :=
  if m.generated_code_handlers.any (fun g => g.id == h.id) then
    some { m with generated_code_handlers :=
             m.generated_code_handlers.eraseP (fun g => g.id == h.id) }
  else if m.other_handlers.any (fun g => g.id == h.id) then
    some { m with other_handlers :=
             m.other_handlers.eraseP (fun g => g.id == h.id) }
  else none

/-- `FaultManager::Init` (fault_handler.cc:72-98): `CHECK(!initialized_)` is
fatal on an already-initialized manager (modelled as `none`); the signal-mask
setup, signal-chain installation and `membarrier` registration (warning-only
on failure) do not change the modelled state; finally the flag is set. -/
def Init (m : FaultManager) : Option FaultManager :=
  if m.initialized then none
  else some { m with initialized := true }

/-- `FaultManager::Release` (fault_handler.cc:100-105): uninstall from the
signal chain and clear the flag when initialized; otherwise a no-op. -/
def Release (m : FaultManager) : FaultManager :=
  if m.initialized then { m with initialized := false } else m

/-- `FaultManager::Shutdown` (fault_handler.cc:107-129): when initialized,
`Release()`, free both handler lists, then swap the range-list head to null
and free the captured chain; otherwise a no-op. -/
def Shutdown (m : FaultManager) : FaultManager :=
  if m.initialized then
    { Release m with
      generated_code_handlers := [],
      other_handlers := [],
      generated_code_ranges := [] }
  else m

end FaultManager

/-
Pointer-level model of the range registry, for the claims about the unlink
step of `RemoveGeneratedCodeRange`.  Nodes are identified by numeric ids
standing for their addresses; the store maps ids to node records.
-/

/-- A node of the intrusive list, as in the source struct
(fault_handler.cc:56-60): the atomically mutable `next` link and the
immutable `start` / `size` fields. -/
structure RangeNode where
  next : Option Nat
  start : Nat
  size : Nat
deriving DecidableEq, Repr

/-- Pointer-level view of the range registry: the node store (id ↦ node) and
the atomic list head `generated_code_ranges_`. -/
structure RangeHeap where
  nodes : List (Nat × RangeNode)
  head : Option Nat
deriving DecidableEq, Repr

/-- Dereference a link slot: `none` designates the list-head slot
`&generated_code_ranges_`, `some p` the slot `&(node p)->next`. -/
def readLink (h : RangeHeap) (before : Option Nat) : Option Nat :=
  match before with
  | none => h.head
  | some p =>
    match h.nodes.lookup p with
    | some nd => nd.next
    | none => none

/-- Store to a link slot: the single store performed by the unlink
(`before->store(next, ...)`, fault_handler.cc:273 / 281). -/
def writeLink (h : RangeHeap) (before : Option Nat) (v : Option Nat) :
    RangeHeap :=
  match before with
  | none => { h with head := v }
  | some p =>
    { h with nodes :=
        h.nodes.map (fun e => if e.1 = p then (e.1, { e.2 with next := v }) else e) }

/-- The search loop of `RemoveGeneratedCodeRange` (fault_handler.cc:262-267):
`before` starts at the head slot and advances to the current node's `next`
slot while the current node's `start` differs.  The walk is fuelled because
the embedding's registries are finite and acyclic; the caller passes fuel
exceeding the store size.  Returns the slot holding the link to the found
node, and the found node's id. -/
def findRangeSlot (h : RangeHeap) (s : Nat) :
    Nat → Option Nat → Option (Option Nat × Nat)
  | 0, _ => none
  | fuel + 1, before =>
    match readLink h before with
    | none => none
    | some rid =>
      match h.nodes.lookup rid with
      | none => none
      | some nd =>
        if nd.start = s then some (before, rid)
        else findRangeSlot h s fuel (some rid)

/-- The unlink step of `RemoveGeneratedCodeRange` at pointer level
(fault_handler.cc:260-284): locate the node with the given `start` and
rewrite only the slot pointing at it (`before->store(next)`); `none` models
the fatal path (`CHECK(range != nullptr)`).  No field of the removed node is
written. -/
def removeRangeUnlink (h : RangeHeap) (s : Nat) : Option (RangeHeap × Nat) :=
  match findRangeSlot h s (h.nodes.length + 1) none with
  | none => none
  | some (before, rid) =>
    match h.nodes.lookup rid with
    | none => none
    | some nd => some (writeLink h before nd.next, rid)

/-- Ids visited by a traversal positioned at link value `link`, following
`next` fields (fuelled walk). -/
def reachFrom (h : RangeHeap) : Nat → Option Nat → List Nat
  | 0, _ => []
  | _ + 1, none => []
  | fuel + 1, some i =>
    i :: (match h.nodes.lookup i with
          | some nd => reachFrom h fuel nd.next
          | none => [])

/-- `Chain h link ids`: starting from the link value `link`, the `next`
fields of the store trace exactly the nodes `ids`, ending at null. -/
inductive Chain (h : RangeHeap) : Option Nat → List Nat → Prop where
  | nil : Chain h none []
  | cons {i : Nat} {nd : RangeNode} {ids : List Nat} :
      h.nodes.lookup i = some nd → Chain h nd.next ids →
      Chain h (some i) (i :: ids)

/-- The slot rewritten by the unlink: the head slot when the walked part of
the list is empty, otherwise the `next` slot of its last node. -/
def lastSlot (before : Option Nat) (l : List Nat) : Option Nat :=
  match l.getLast? with
  | none => before
  | some p => some p

/-- The handlers consulted by a short-circuiting dispatch loop, in
registration order: every handler up to and including the first one whose
`Action` claims the fault. -/
def consultedIds : List FaultHandler → FaultArgs → List Nat
  | [], _ => []
  | h :: rest, f => if h.action f then [h.id] else h.id :: consultedIds rest f

/-- Fixture: a handler whose `Action` never claims. -/
def handlerA : FaultHandler := ⟨1, fun _ => false⟩

/-- Fixture: a handler whose `Action` always claims. -/
def handlerB : FaultHandler := ⟨2, fun _ => true⟩

/-- Fixture: a runnable, lock-holding context faulting at PC 4200. -/
def ctxW : FaultContext := ⟨true, ThreadState.kRunnable, true, 4200⟩

/-- Fixture: fault arguments for signal 11 in the context `ctxW`. -/
def fW : FaultArgs := ⟨11, ctxW⟩

/-- Fixture: a three-node pointer-level registry 1 → 2 → 3. -/
def hW : RangeHeap :=
  ⟨[(1, ⟨some 2, 4096, 256⟩), (2, ⟨some 3, 8192, 256⟩), (3, ⟨none, 12288, 256⟩)],
   some 1⟩

/-- Fixture: `hW` after unlinking node 2 (node 1 bypasses it; node 2 keeps
its own fields). -/
def hW2 : RangeHeap :=
  ⟨[(1, ⟨some 3, 4096, 256⟩), (2, ⟨some 3, 8192, 256⟩), (3, ⟨none, 12288, 256⟩)],
   some 1⟩

/-- C5: whenever any thread-state guard fails — no current thread, state not
`Runnable`, mutator lock not held shared, or zero fault PC —
`IsInGeneratedCode` returns false, for every registry state. -/
theorem C5_guard_failure_never_in_range (m : FaultManager) (ctx : FaultContext)
    (hguard : ctx.hasCurrentThread = false ∨ ctx.threadState ≠ ThreadState.kRunnable ∨
      ctx.mutatorLockSharedHeld = false ∨ ctx.faultPc = 0) :
    m.IsInGeneratedCode ctx = false := by
  unfold FaultManager.IsInGeneratedCode
  rcases hguard with h | h | h | h <;> simp [h, bne_iff_ne]

/-- C5 witness: a non-`Runnable` thread is never classified in-range even with
a registry whose range covers the fault PC. -/
theorem C5_witness :
    FaultManager.IsInGeneratedCode ⟨[], [], [⟨4096, 512⟩], true⟩
      ⟨true, ThreadState.kNative, true, 4200⟩ = false :=
  C5_guard_failure_never_in_range _ _ (Or.inr (Or.inl (by decide)))

/-- C8: `Init` is fatal on an already-initialized manager and otherwise ends
with the flag set; `Release` and `Shutdown` are no-ops on an uninitialized
manager; `Shutdown` clears the flag, after which `Init` succeeds again. -/
theorem C8_lifecycle (m : FaultManager) :
    (m.initialized = true → m.Init = none) ∧
    (∀ m', m.Init = some m' → m'.initialized = true) ∧
    (m.initialized = false → m.Release = m ∧ m.Shutdown = m) ∧
    m.Shutdown.initialized = false ∧
    (∃ m', m.Shutdown.Init = some m' ∧ m'.initialized = true) := by
  by_cases h : m.initialized <;>
    simp [FaultManager.Init, FaultManager.Release, FaultManager.Shutdown, h]

/-- C8 witness: `Init` aborts on an initialized manager, and `Shutdown` then
`Init` on an uninitialized manager is a no-op then a success. -/
theorem C8_witness :
    FaultManager.Init ⟨[], [], [], true⟩ = none ∧
    FaultManager.Shutdown ⟨[], [], [], false⟩ = ⟨[], [], [], false⟩ := by
  refine ⟨(C8_lifecycle ⟨[], [], [], true⟩).1 rfl, ?_⟩
  exact ((C8_lifecycle ⟨[], [], [], false⟩).2.2.1 rfl).2

/-- C10: `IsInGeneratedCode` is read-only on the manager: the state-threaded
transcription returns the state it received unchanged (registry head, nodes,
handler lists and flag) with the same boolean as the pure lookup, so two
consecutive calls with the same inputs agree. -/
theorem C10_lookup_readonly (m : FaultManager) (ctx : FaultContext) :
    (m.IsInGeneratedCodeOp ctx).2 = m ∧
    (m.IsInGeneratedCodeOp ctx).1 = m.IsInGeneratedCode ctx ∧
    ((m.IsInGeneratedCodeOp ctx).2.IsInGeneratedCodeOp ctx).1 =
      (m.IsInGeneratedCodeOp ctx).1 := by
  have key : m.IsInGeneratedCodeOp ctx = (m.IsInGeneratedCode ctx, m) := by
    unfold FaultManager.IsInGeneratedCodeOp FaultManager.IsInGeneratedCode
    split_ifs <;> rfl
  simp [key]

/-- C3: adding a range and immediately removing it restores the previous
registry state, so every lookup answers as before the add. -/
theorem C3_add_remove_roundtrip (m : FaultManager) (p n : Nat) :
    (m.AddGeneratedCodeRange p n).RemoveGeneratedCodeRange p n = some m ∧
    ∀ m', (m.AddGeneratedCodeRange p n).RemoveGeneratedCodeRange p n = some m' →
      ∀ ctx, m'.IsInGeneratedCode ctx = m.IsInGeneratedCode ctx := by
  have h1 : (m.AddGeneratedCodeRange p n).RemoveGeneratedCodeRange p n = some m := by
    unfold FaultManager.AddGeneratedCodeRange FaultManager.RemoveGeneratedCodeRange
    simp [List.find?_cons, List.eraseP_cons]
  refine ⟨h1, fun m' hm' ctx => ?_⟩
  rw [h1] at hm'
  injection hm' with h2
  rw [h2]

/-- C3 witness: the round trip at a concrete registry holding one other
range. -/
theorem C3_witness :
    FaultManager.RemoveGeneratedCodeRange
      (FaultManager.AddGeneratedCodeRange ⟨[], [], [⟨8192, 256⟩], true⟩ 4096 512)
      4096 512 = some ⟨[], [], [⟨8192, 256⟩], true⟩ :=
  (C3_add_remove_roundtrip ⟨[], [], [⟨8192, 256⟩], true⟩ 4096 512).1

/-- C7: the programming-error conditions are fatal: removing a handler
registered in neither list, removing a range whose `start` was never added,
and removing a range whose recorded `size` differs from the requested one. -/
theorem C7_fatal_conditions (m : FaultManager) (h : FaultHandler) (p n : Nat) :
    ((∀ g ∈ m.generated_code_handlers, g.id ≠ h.id) →
      (∀ g ∈ m.other_handlers, g.id ≠ h.id) →
      m.RemoveHandler h = none) ∧
    ((∀ r ∈ m.generated_code_ranges, r.start ≠ p) →
      m.RemoveGeneratedCodeRange p n = none) ∧
    (∀ r, m.generated_code_ranges.find? (fun r => r.start == p) = some r →
      r.size ≠ n → m.RemoveGeneratedCodeRange p n = none) := by
  refine ⟨fun hg ho => ?_, fun hr => ?_, fun r hfind hsz => ?_⟩
  · unfold FaultManager.RemoveHandler
    have h1 : m.generated_code_handlers.any (fun g => g.id == h.id) = false := by
      rw [List.any_eq_false]
      intro g hgm
      simp [hg g hgm]
    have h2 : m.other_handlers.any (fun g => g.id == h.id) = false := by
      rw [List.any_eq_false]
      intro g hgm
      simp [ho g hgm]
    simp [h1, h2]
  · unfold FaultManager.RemoveGeneratedCodeRange
    have hnone : m.generated_code_ranges.find? (fun r => r.start == p) = none := by
      rw [List.find?_eq_none]
      intro x hx
      simp [hr x hx]
    rw [hnone]
  · unfold FaultManager.RemoveGeneratedCodeRange
    rw [hfind]
    simp [hsz]

/-- C7 witness: the three fatal conditions at concrete manager states. -/
theorem C7_witness :
    FaultManager.RemoveHandler ⟨[handlerA], [], [], true⟩ handlerB = none ∧
    FaultManager.RemoveGeneratedCodeRange ⟨[], [], [⟨4096, 512⟩], true⟩ 8192 1 = none ∧
    FaultManager.RemoveGeneratedCodeRange ⟨[], [], [⟨4096, 512⟩], true⟩ 4096 1 = none := by
  refine ⟨?_, ?_, ?_⟩
  · exact (C7_fatal_conditions ⟨[handlerA], [], [], true⟩ handlerB 0 0).1
      (by intro g hg; rw [List.mem_singleton] at hg; rw [hg]; decide)
      (by intro g hg; exact absurd hg (List.not_mem_nil g))
  · exact (C7_fatal_conditions ⟨[], [], [⟨4096, 512⟩], true⟩ handlerA 8192 1).2.1
      (by intro r hr; rw [List.mem_singleton] at hr; rw [hr]; decide)
  · exact (C7_fatal_conditions ⟨[], [], [⟨4096, 512⟩], true⟩ handlerA 4096 1).2.2
      ⟨4096, 512⟩ rfl (by decide)

/-- Pointer width as a numeral, for arithmetic decision procedures. -/
theorem ptrMod_eq : ptrMod = 18446744073709551616 := by norm_num [ptrMod]

/-- The unsigned per-range test equals interval membership for machine-width
ranges that do not wrap around the address space. -/
theorem inGeneratedRange_iff (a : Nat) (r : GeneratedCodeRange)
    (ha : a < ptrMod) (hs : r.start < ptrMod) (hw : r.start + r.size ≤ ptrMod) :
    inGeneratedRange a r = true ↔ r.start ≤ a ∧ a < r.start + r.size := by
  rw [ptrMod_eq] at ha hs hw
  unfold inGeneratedRange usub
  rw [ptrMod_eq]
  simp only [decide_eq_true_eq]
  omega

/-- The registry walk accepts exactly when some registered range's test
accepts. -/
theorem rangesContain_iff (l : List GeneratedCodeRange) (a : Nat) :
    rangesContain l a = true ↔ ∃ r ∈ l, inGeneratedRange a r = true := by
  induction l with
  | nil => simp [rangesContain]
  | cons r rest ih => simp [rangesContain, ih]

/-- C1: under the thread-state guards (valid current thread, Runnable state,
shared mutator lock held, nonzero fault PC), `IsInGeneratedCode` returns true
iff the fault PC lies in `[start, start + size)` of some registered range;
and the per-range unsigned comparison rejects every address below `start` via
wraparound. -/
theorem C1_lookup_iff_registered_range (m : FaultManager) (ctx : FaultContext)
    (hthread : ctx.hasCurrentThread = true)
    (hstate : ctx.threadState = ThreadState.kRunnable)
    (hlock : ctx.mutatorLockSharedHeld = true)
    (hpc : ctx.faultPc ≠ 0)
    (hpcw : ctx.faultPc < ptrMod)
    (hrw : ∀ r ∈ m.generated_code_ranges, r.start < ptrMod ∧ r.start + r.size ≤ ptrMod) :
    (m.IsInGeneratedCode ctx = true ↔
      ∃ r ∈ m.generated_code_ranges,
        r.start ≤ ctx.faultPc ∧ ctx.faultPc < r.start + r.size) ∧
    ∀ r ∈ m.generated_code_ranges, ctx.faultPc < r.start →
      inGeneratedRange ctx.faultPc r = false := by
  have hguard : m.IsInGeneratedCode ctx =
      rangesContain m.generated_code_ranges ctx.faultPc := by
    unfold FaultManager.IsInGeneratedCode
    simp [hthread, hstate, hlock, hpc]
  constructor
  · rw [hguard, rangesContain_iff]
    constructor
    · rintro ⟨r, hrm, hin⟩
      exact ⟨r, hrm, (inGeneratedRange_iff _ r hpcw (hrw r hrm).1 (hrw r hrm).2).1 hin⟩
    · rintro ⟨r, hrm, hin⟩
      exact ⟨r, hrm, (inGeneratedRange_iff _ r hpcw (hrw r hrm).1 (hrw r hrm).2).2 hin⟩
  · intro r hrm hlt
    cases hb : inGeneratedRange ctx.faultPc r with
    | false => rfl
    | true =>
      have := (inGeneratedRange_iff _ r hpcw (hrw r hrm).1 (hrw r hrm).2).1 hb
      omega

/-- C1 witness: with range [4096, 4608) registered, a guarded fault at PC 4200
is classified in-range, and the unsigned test rejects PC 4000 below start. -/
theorem C1_witness :
    FaultManager.IsInGeneratedCode ⟨[], [], [⟨4096, 512⟩], true⟩ ctxW = true ∧
    inGeneratedRange 4000 ⟨4096, 512⟩ = false := by
  have h1 := C1_lookup_iff_registered_range ⟨[], [], [⟨4096, 512⟩], true⟩ ctxW
    rfl rfl rfl (by decide) (by decide) (by decide)
  have h2 := C1_lookup_iff_registered_range ⟨[], [], [⟨4096, 512⟩], true⟩
    ⟨true, ThreadState.kRunnable, true, 4000⟩ rfl rfl rfl (by decide) (by decide) (by decide)
  refine ⟨h1.1.mpr ⟨⟨4096, 512⟩, by simp, by decide, by decide⟩, ?_⟩
  exact h2.2 ⟨4096, 512⟩ (by simp) (by decide)

/-- C2: with generated-code handlers registered in order [A, B], a fault
classified in-range where A does not claim and B claims yields "claimed",
with A consulted strictly before B and no later handler consulted. -/
theorem C2_first_claim_short_circuits (m : FaultManager) (f : FaultArgs)
    (A B : FaultHandler) (rest : List FaultHandler)
    (hg : m.generated_code_handlers = A :: B :: rest)
    (hin : m.IsInGeneratedCode f.ctx = true)
    (hA : A.action f = false) (hB : B.action f = true) :
    m.HandleFault f =
      (true, [Event.consultGenerated A.id, Event.consultGenerated B.id]) := by
  unfold FaultManager.HandleFault
  rw [hin, hg]
  simp [FaultManager.dispatchGeneratedCode, hA, hB]

/-- C2 witness: the concrete two-handler dispatch at an in-range fault. -/
theorem C2_witness :
    FaultManager.HandleFault ⟨[handlerA, handlerB], [], [⟨4096, 512⟩], true⟩ fW =
      (true, [Event.consultGenerated 1, Event.consultGenerated 2]) :=
  C2_first_claim_short_circuits ⟨[handlerA, handlerB], [], [⟨4096, 512⟩], true⟩ fW
    handlerA handlerB [] rfl (by decide) rfl rfl

/-- Trace of the other-handlers dispatch loop: exactly the consulted ids, in
registration order, as `consultOther` events. -/
theorem dispatchOther_trace (l : List FaultHandler) (f : FaultArgs) :
    (FaultManager.dispatchOtherHandlers l f).2 =
      (consultedIds l f).map Event.consultOther := by
  induction l with
  | nil => rfl
  | cons h rest ih =>
    unfold FaultManager.dispatchOtherHandlers consultedIds
    by_cases hb : h.action f <;> simp [hb, ih]

/-- Trace of `HandleFaultByOtherHandlers`: exactly the consulted other-handler
ids. -/
theorem handleOther_trace (m : FaultManager) (f : FaultArgs) :
    (m.HandleFaultByOtherHandlers f).2 =
      (consultedIds m.other_handlers f).map Event.consultOther := by
  unfold FaultManager.HandleFaultByOtherHandlers
  by_cases he : m.other_handlers.isEmpty
  · rw [List.isEmpty_iff] at he
    simp [he, consultedIds]
  · simp [he, dispatchOther_trace]

/-- Consult events survive the filter that drops the marker call. -/
theorem filter_isConsult_map_other (l : List Nat) :
    (l.map Event.consultOther).filter Event.isConsult = l.map Event.consultOther := by
  induction l with
  | nil => rfl
  | cons a rest ih => simp [Event.isConsult, ih, List.filter]

/-- C6: a fault classified not-in-range never invokes a generated-code
handler's Action; the consultations in its trace are exactly the
other-handlers prefix, in registration order up to the first claim. -/
theorem C6_not_in_range_other_handlers_only (m : FaultManager) (f : FaultArgs)
    (hout : m.IsInGeneratedCode f.ctx = false) :
    (∀ i, Event.consultGenerated i ∉ (m.HandleFault f).2) ∧
    (m.HandleFault f).2.filter Event.isConsult =
      (consultedIds m.other_handlers f).map Event.consultOther := by
  have hmain : (m.HandleFault f).2 =
      (consultedIds m.other_handlers f).map Event.consultOther ∨
      (m.HandleFault f).2 =
      (consultedIds m.other_handlers f).map Event.consultOther ++
        [Event.sigsegvFaultMarker] := by
    unfold FaultManager.HandleFault
    rw [hout]
    by_cases ho : (m.HandleFaultByOtherHandlers f).1 <;>
      simp [ho, handleOther_trace]
  rcases hmain with hm | hm <;> rw [hm]
  · refine ⟨fun i => ?_, filter_isConsult_map_other _⟩
    simp [List.mem_map]
  · refine ⟨fun i => ?_, ?_⟩
    · simp [List.mem_map]
    · rw [List.filter_append]
      simp [filter_isConsult_map_other, Event.isConsult, List.filter]

/-- C6 witness: a fault at PC 9000, outside the only range, skips the claiming
generated-code handler and consults only the other handler. -/
theorem C6_witness :
    (FaultManager.HandleFault ⟨[handlerB], [handlerA], [⟨4096, 512⟩], true⟩
      ⟨11, ⟨true, ThreadState.kRunnable, true, 9000⟩⟩).2.filter Event.isConsult =
      (consultedIds [handlerA]
        ⟨11, ⟨true, ThreadState.kRunnable, true, 9000⟩⟩).map Event.consultOther :=
  (C6_not_in_range_other_handlers_only ⟨[handlerB], [handlerA], [⟨4096, 512⟩], true⟩
    ⟨11, ⟨true, ThreadState.kRunnable, true, 9000⟩⟩ (by decide)).2

/-- A dispatch loop whose handlers all decline reports no claim. -/
theorem dispatchGenerated_no_claim (l : List FaultHandler) (f : FaultArgs)
    (hall : ∀ h ∈ l, h.action f = false) :
    (FaultManager.dispatchGeneratedCode l f).1 = false := by
  induction l with
  | nil => rfl
  | cons h rest ih =>
    unfold FaultManager.dispatchGeneratedCode
    simp [hall h (List.mem_cons_self h rest)]
    exact ih fun g hg => hall g (List.mem_cons_of_mem h hg)

/-- Other-handlers version of `dispatchGenerated_no_claim`. -/
theorem dispatchOther_no_claim (l : List FaultHandler) (f : FaultArgs)
    (hall : ∀ h ∈ l, h.action f = false) :
    (FaultManager.dispatchOtherHandlers l f).1 = false := by
  induction l with
  | nil => rfl
  | cons h rest ih =>
    unfold FaultManager.dispatchOtherHandlers
    simp [hall h (List.mem_cons_self h rest)]
    exact ih fun g hg => hall g (List.mem_cons_of_mem h hg)

/-- The generated-code dispatch loop never emits the marker event. -/
theorem marker_not_in_dispatchGenerated (l : List FaultHandler) (f : FaultArgs) :
    Event.sigsegvFaultMarker ∉ (FaultManager.dispatchGeneratedCode l f).2 := by
  induction l with
  | nil => simp [FaultManager.dispatchGeneratedCode]
  | cons h rest ih =>
    unfold FaultManager.dispatchGeneratedCode
    by_cases hb : h.action f <;> simp [hb, ih]

/-- The other-handlers dispatch loop never emits the marker event. -/
theorem marker_not_in_dispatchOther (l : List FaultHandler) (f : FaultArgs) :
    Event.sigsegvFaultMarker ∉ (FaultManager.dispatchOtherHandlers l f).2 := by
  induction l with
  | nil => simp [FaultManager.dispatchOtherHandlers]
  | cons h rest ih =>
    unfold FaultManager.dispatchOtherHandlers
    by_cases hb : h.action f <;> simp [hb, ih]

/-- C9: when no handler in either list claims the fault, `HandleFault` invokes
the `art_sigsegv_fault` marker exactly once and returns unclaimed. -/
theorem C9_unclaimed_marker_once (m : FaultManager) (f : FaultArgs)
    (hgen : ∀ h ∈ m.generated_code_handlers, h.action f = false)
    (hoth : ∀ h ∈ m.other_handlers, h.action f = false) :
    (m.HandleFault f).1 = false ∧
    (m.HandleFault f).2.count Event.sigsegvFaultMarker = 1 := by
  have hg1 : (FaultManager.dispatchGeneratedCode m.generated_code_handlers f).1 = false :=
    dispatchGenerated_no_claim _ f hgen
  have ho1 : (m.HandleFaultByOtherHandlers f).1 = false := by
    unfold FaultManager.HandleFaultByOtherHandlers
    by_cases he : m.other_handlers.isEmpty
    · simp [he]
    · simp [he, dispatchOther_no_claim _ f hoth]
  have hgm : Event.sigsegvFaultMarker ∉
      (FaultManager.dispatchGeneratedCode m.generated_code_handlers f).2 :=
    marker_not_in_dispatchGenerated _ f
  have hom : Event.sigsegvFaultMarker ∉ (m.HandleFaultByOtherHandlers f).2 := by
    unfold FaultManager.HandleFaultByOtherHandlers
    by_cases he : m.other_handlers.isEmpty
    · simp [he]
    · simp [he, marker_not_in_dispatchOther _ f]
  unfold FaultManager.HandleFault
  by_cases hin : m.IsInGeneratedCode f.ctx <;>
    simp [hin, hg1, ho1, List.count_append,
      List.count_eq_zero.mpr hgm, List.count_eq_zero.mpr hom]

/-- C9 witness: a fault claimed by neither list returns false with one marker
invocation. -/
theorem C9_witness :
    (FaultManager.HandleFault ⟨[handlerA], [handlerA], [⟨4096, 512⟩], true⟩ fW).1 = false ∧
    (FaultManager.HandleFault ⟨[handlerA], [handlerA], [⟨4096, 512⟩], true⟩ fW).2.count
      Event.sigsegvFaultMarker = 1 :=
  C9_unclaimed_marker_once ⟨[handlerA], [handlerA], [⟨4096, 512⟩], true⟩ fW
    (by intro h hh; rw [List.mem_singleton] at hh; rw [hh]; rfl)
    (by intro h hh; rw [List.mem_singleton] at hh; rw [hh]; rfl)

/-- Inversion for a nonempty chain: the link points at the first node, which
resolves in the store and continues the chain through its `next` field. -/
theorem chain_cons_inv {h : RangeHeap} {link : Option Nat} {i : Nat} {ids : List Nat}
    (hc : Chain h link (i :: ids)) :
    link = some i ∧ ∃ nd, h.nodes.lookup i = some nd ∧ Chain h nd.next ids := by
  cases hc with
  | cons hlook hrest => exact ⟨rfl, _, hlook, hrest⟩

/-- Chains only read the node store, so they transfer between heaps with equal
stores. -/
theorem chain_of_nodes_eq {h h' : RangeHeap} (he : h'.nodes = h.nodes)
    {link : Option Nat} {ids : List Nat} (hc : Chain h link ids) :
    Chain h' link ids := by
  induction hc with
  | nil => exact Chain.nil
  | cons hlook hrest ih => exact Chain.cons (by rw [he]; exact hlook) ih

/-- A chain restricted to the part from a designated member onward. -/
theorem chain_split {h : RangeHeap} :
    ∀ (l1 : List Nat) {link : Option Nat} {rid : Nat} {l2 : List Nat},
      Chain h link (l1 ++ rid :: l2) → Chain h (some rid) (rid :: l2) := by
  intro l1
  induction l1 with
  | nil =>
    intro link rid l2 hc
    obtain ⟨rfl, nd, hlook, hrest⟩ := chain_cons_inv hc
    exact Chain.cons hlook hrest
  | cons q l1' ih =>
    intro link rid l2 hc
    obtain ⟨rfl, nd, hlook, hrest⟩ := chain_cons_inv hc
    exact ih hrest

/-- Every member of a chain resolves in the node store. -/
theorem chain_mem_keys {h : RangeHeap} {link : Option Nat} {ids : List Nat}
    (hc : Chain h link ids) : ∀ i ∈ ids, i ∈ h.nodes.map Prod.fst := by
  induction hc with
  | nil => simp
  | cons hlook hrest ih =>
    intro j hj
    rcases List.mem_cons.mp hj with rfl | hj'
    · obtain ⟨l1, l2, heq, -⟩ := List.lookup_eq_some_iff.mp hlook
      rw [heq]
      simp
    · exact ih j hj'

/-- Frame rule for a link store into a node: only the key `p` changes, and it
only in its `next` field. -/
theorem lookup_writeLink (h : RangeHeap) (p : Nat) (v : Option Nat) (j : Nat) :
    (writeLink h (some p) v).nodes.lookup j =
      if j = p then (h.nodes.lookup p).map (fun nd => { nd with next := v })
      else h.nodes.lookup j := by
  show (h.nodes.map fun e => if e.1 = p then (e.1, { e.2 with next := v }) else e).lookup j = _
  generalize h.nodes = l
  induction l with
  | nil => simp [List.lookup]
  | cons e rest ih =>
    obtain ⟨k, nd⟩ := e
    by_cases hkp : k = p
    · subst hkp
      by_cases hjk : j = k
      · subst hjk
        simp [List.lookup_cons]
      · have hb : (j == k) = false := beq_eq_false_iff_ne.mpr hjk
        simp [List.lookup_cons, hb, hjk, ih]
    · by_cases hjk : j = k
      · subst hjk
        have hjp : j ≠ p := hkp
        simp [List.lookup_cons, hkp, hjp]
      · have hb : (j == k) = false := beq_eq_false_iff_ne.mpr hjk
        have hb2 : (p == k) = false := beq_eq_false_iff_ne.mpr fun hh => hkp hh.symm
        simp [List.lookup_cons, hb, hb2, hkp, ih]

/-- A chain avoiding the written node is unaffected by the link store. -/
theorem chain_writeLink_of_not_mem {h : RangeHeap} {link : Option Nat}
    {ids : List Nat} (hc : Chain h link ids) (p : Nat) (v : Option Nat)
    (hp : p ∉ ids) : Chain (writeLink h (some p) v) link ids := by
  induction hc with
  | nil => exact Chain.nil
  | cons hlook hrest ih =>
    rename_i i nd ids'
    have hip : i ≠ p := fun hip => hp (hip ▸ List.mem_cons_self i ids')
    refine Chain.cons ?_ (ih fun hmem => hp (List.mem_cons_of_mem i hmem))
    rw [lookup_writeLink]
    simp [hip, hlook]

/-- Unfolding `lastSlot` over a cons cell. -/
theorem lastSlot_cons (before : Option Nat) (q : Nat) (l : List Nat) :
    lastSlot before (q :: l) = lastSlot (some q) l := by
  cases l with
  | nil => rfl
  | cons a l' =>
    unfold lastSlot
    rw [List.getLast?_cons_cons]
    cases hl : (a :: l').getLast? with
    | none => simp at hl
    | some p => rfl

/-- The search loop of the unlink finds the first node whose `start` matches,
and reports the slot holding the link that points at it. -/
theorem findRangeSlot_spec (h : RangeHeap) (s : Nat) :
    ∀ (l : List Nat) (rid : Nat) (post : List Nat) (fuel : Nat) (before : Option Nat),
      l.length + 1 ≤ fuel →
      Chain h (readLink h before) (l ++ rid :: post) →
      (∀ i ∈ l, ∀ nd, h.nodes.lookup i = some nd → nd.start ≠ s) →
      (∀ nd, h.nodes.lookup rid = some nd → nd.start = s) →
      findRangeSlot h s fuel before = some (lastSlot before l, rid) := by
  intro l
  induction l with
  | nil =>
    intro rid post fuel before hfuel hc hpre hrid
    obtain ⟨hlink, nd, hlook, hrest⟩ := chain_cons_inv hc
    cases fuel with
    | zero => omega
    | succ fuel' =>
      simp only [findRangeSlot, hlink, hlook]
      simp [hrid nd hlook, lastSlot]
  | cons q l' ih =>
    intro rid post fuel before hfuel hc hpre hrid
    obtain ⟨hlink, ndq, hlookq, hrest⟩ := chain_cons_inv hc
    cases fuel with
    | zero => simp at hfuel
    | succ fuel' =>
      have hq : ndq.start ≠ s := hpre q (List.mem_cons_self q l') ndq hlookq
      have hread : readLink h (some q) = ndq.next := by
        simp [readLink, hlookq]
      simp only [findRangeSlot, hlink, hlookq, hq, if_false, lastSlot_cons]
      exact ih rid post fuel' (some q) (by simp at hfuel; omega)
        (by rw [hread]; exact hrest)
        (fun i hi => hpre i (List.mem_cons_of_mem q hi)) hrid

/-- Rebuilding the chain after the bypass store: with the last walked node's
link redirected to the retained tail, the walked part chains straight to that
tail. -/
theorem chain_writeLink_bypass {h : RangeHeap} {w : Option Nat} {post : List Nat} :
    ∀ (pre : List Nat) (link : Option Nat) (p : Nat),
      pre.getLast? = some p →
      ∀ (rid : Nat), Chain h link (pre ++ rid :: post) →
      (pre ++ rid :: post).Nodup →
      Chain (writeLink h (some p) w) w post →
      Chain (writeLink h (some p) w) link (pre ++ post) := by
  intro pre
  induction pre with
  | nil => intro link p hlast; simp at hlast
  | cons q pre' ih =>
    intro link p hlast rid hc hnd hpost
    obtain ⟨rfl, ndq, hlookq, hrest⟩ := chain_cons_inv hc
    cases pre' with
    | nil =>
      have hpq : p = q := by
        simp [lastSlot, List.getLast?] at hlast
        omega
      subst hpq
      have hl' : (writeLink h (some p) w).nodes.lookup p =
          some { ndq with next := w } := by
        rw [lookup_writeLink]
        simp [hlookq]
      exact Chain.cons hl' hpost
    | cons a pre'' =>
      have hlast' : (a :: pre'').getLast? = some p := by
        rw [← hlast, List.getLast?_cons_cons]
      have hpmem : p ∈ a :: pre'' := by
        obtain ⟨hne, rfl⟩ := List.mem_getLast?_eq_getLast hlast'
        exact List.getLast_mem hne
      have hqp : q ≠ p := by
        have hqnot : q ∉ (a :: pre'') ++ rid :: post :=
          (List.nodup_cons.mp hnd).1
        intro hqp
        exact hqnot (List.mem_append.mpr (Or.inl (hqp ▸ hpmem)))
      have hlq : (writeLink h (some p) w).nodes.lookup q = some ndq := by
        rw [lookup_writeLink]
        simp [hqp, hlookq]
      exact Chain.cons hlq
        (ih ndq.next p hlast' rid hrest (List.nodup_cons.mp hnd).2 hpost)

/-- C4 (amended): unlinking the first node whose `start` matches rewrites
only its predecessor's link slot (or the list head when the node is first);
the removed node's own `next`, `start` and `size` are untouched, so a
traversal positioned at the removed node still reaches every remaining node
that followed it, and the head now chains through the remaining nodes. -/
theorem C4_remove_unlink_frame (h : RangeHeap) (s : Nat) (pre post : List Nat)
    (rid : Nat)
    (hchain : Chain h h.head (pre ++ rid :: post))
    (hnodup : (pre ++ rid :: post).Nodup)
    (hpre : ∀ i ∈ pre, ∀ nd, h.nodes.lookup i = some nd → nd.start ≠ s)
    (hrid : ∀ nd, h.nodes.lookup rid = some nd → nd.start = s) :
    ∃ h', removeRangeUnlink h s = some (h', rid) ∧
      h'.nodes.lookup rid = h.nodes.lookup rid ∧
      (pre = [] → h'.nodes = h.nodes) ∧
      (∀ p, pre.getLast? = some p →
        h'.head = h.head ∧ ∀ j, j ≠ p → h'.nodes.lookup j = h.nodes.lookup j) ∧
      Chain h' (some rid) (rid :: post) ∧
      Chain h' h'.head (pre ++ post) := by
  have hsplit : Chain h (some rid) (rid :: post) := chain_split pre hchain
  obtain ⟨-, ndr, hlookr, hpost⟩ := chain_cons_inv hsplit
  have hlen : pre.length ≤ h.nodes.length := by
    have hsub : pre ⊆ h.nodes.map Prod.fst := fun i hi =>
      chain_mem_keys hchain i (List.mem_append.mpr (Or.inl hi))
    have hnd : pre.Nodup := hnodup.of_append_left
    have := (List.subperm_of_subset hnd hsub).length_le
    simpa using this
  have hfind : findRangeSlot h s (h.nodes.length + 1) none =
      some (lastSlot none pre, rid) :=
    findRangeSlot_spec h s pre rid post (h.nodes.length + 1) none (by omega)
      hchain hpre hrid
  have hrm : removeRangeUnlink h s =
      some (writeLink h (lastSlot none pre) ndr.next, rid) := by
    simp only [removeRangeUnlink, hfind, hlookr]
  cases hp : pre.getLast? with
  | none =>
    have hpre0 : pre = [] := List.getLast?_eq_none_iff.mp hp
    subst hpre0
    refine ⟨writeLink h (lastSlot none []) ndr.next, hrm, rfl, fun _ => rfl,
      fun p hp' => by simp at hp', ?_, ?_⟩
    · exact chain_of_nodes_eq
        (show (writeLink h (lastSlot none []) ndr.next).nodes = h.nodes from rfl)
        (Chain.cons hlookr hpost)
    · show Chain _ ndr.next ([] ++ post)
      exact chain_of_nodes_eq
        (show (writeLink h (lastSlot none []) ndr.next).nodes = h.nodes from rfl)
        hpost
  | some p =>
    have hslot : lastSlot none pre = some p := by
      unfold lastSlot
      rw [hp]
    rw [hslot] at hrm
    have hpmem : p ∈ pre := by
      obtain ⟨hne, rfl⟩ := List.mem_getLast?_eq_getLast hp
      exact List.getLast_mem hne
    have hdisj : List.Disjoint pre (rid :: post) :=
      List.disjoint_of_nodup_append hnodup
    have hpnot : p ∉ rid :: post := fun hmem => hdisj hpmem hmem
    have hridp : rid ≠ p := by
      intro he
      rw [← he] at hpnot
      exact hpnot (List.mem_cons_self rid post)
    refine ⟨writeLink h (some p) ndr.next, hrm, ?_, ?_, ?_, ?_, ?_⟩
    · rw [lookup_writeLink]
      simp [hridp]
    · intro he
      rw [he] at hp
      simp at hp
    · intro p' hp'
      injection hp' with hp''
      subst hp''
      refine ⟨rfl, fun j hj => ?_⟩
      rw [lookup_writeLink]
      simp [hj]
    · exact chain_writeLink_of_not_mem (Chain.cons hlookr hpost) p ndr.next hpnot
    · show Chain _ h.head (pre ++ post)
      exact chain_writeLink_bypass pre h.head p hp rid hchain hnodup
        (chain_writeLink_of_not_mem hpost p ndr.next
          fun hmem => hpnot (List.mem_cons_of_mem rid hmem))

/-- C4 counterexample to the claim as stated: removing the non-head node 2
from the two-node registry 1 → 2 leaves node 1 in the list (reachable from
the new head), yet node 1 is not reachable from the removed node, so a
traversal positioned at the removed node cannot reach every node that
remains in the list. -/
theorem C4_counterexample :
    removeRangeUnlink ⟨[(1, ⟨some 2, 4096, 256⟩), (2, ⟨none, 8192, 256⟩)], some 1⟩ 8192 =
      some (⟨[(1, ⟨none, 4096, 256⟩), (2, ⟨none, 8192, 256⟩)], some 1⟩, 2) ∧
    1 ∈ reachFrom ⟨[(1, ⟨none, 4096, 256⟩), (2, ⟨none, 8192, 256⟩)], some 1⟩ 3 (some 1) ∧
    ¬ 1 ∈ reachFrom ⟨[(1, ⟨none, 4096, 256⟩), (2, ⟨none, 8192, 256⟩)], some 1⟩ 3 (some 2) := by
  decide

/-- C4 witness: the amended unlink property applied to the concrete registry
1 → 2 → 3, removing the middle node 2 (predecessor 1, follower 3). -/
theorem C4_witness :
    removeRangeUnlink hW 8192 = some (hW2, 2) ∧ Chain hW2 (some 2) [2, 3] := by
  obtain ⟨h', hrm, hfr, hnil, hlastf, hreach, hlist⟩ :=
    C4_remove_unlink_frame hW 8192 [1] [3] 2
      (Chain.cons rfl (Chain.cons rfl (Chain.cons rfl Chain.nil)))
      (by decide)
      (by
        intro i hi nd hnd
        rw [List.mem_singleton] at hi
        subst hi
        injection hnd with hnd'
        rw [← hnd']
        decide)
      (by
        intro nd hnd
        injection hnd with hnd'
        rw [← hnd'])
  have hcalc : removeRangeUnlink hW 8192 = some (hW2, 2) := by decide
  refine ⟨hcalc, ?_⟩
  rw [hrm] at hcalc
  injection hcalc with hpair
  have hh : h' = hW2 := congrArg Prod.fst hpair
  rw [← hh]
  exact hreach

end Art
